import Mathlib

/-!
A shallow embedding, in Lean 4, of the core logic of the `ufora-cli`
repository (files `src/ufora_cli/cli.py` and `src/ufora_cli/timeedit_parser.py`),
together with theorems settling the frozen claims about that code.

Python strings are modelled as `List Char` (named `Str` below); Python dicts
whose keys matter are modelled as association lists with Python's
insertion-order/overwrite semantics (`insertAssoc`); network and browser
effects are modelled as explicit oracle functions passed in; exceptions are
modelled with `Except`/`Option`.  Character classes (`\s`, `[A-Z]`, `\d`,
`str.lower`) are modelled at the ASCII level, which covers every literal the
source manipulates.
-/

abbrev Str := List Char

/-- Whitespace as Python's `str.strip` / regex `\s` recognise it (ASCII part). -/
def pyIsSpace (c : Char) : Bool :=
  c = ' ' ∨ c = '\t' ∨ c = '\n' ∨ c = '\x0b' ∨ c = '\x0c' ∨ c = '\r'

/-- Python `str.strip()`: drop leading and trailing whitespace. -/
def pyStrip (s : Str) : Str :=
  ((s.dropWhile pyIsSpace).reverse.dropWhile pyIsSpace).reverse

/-- Python `str.split(sep)` for a one-character separator: split on every
occurrence, keeping empty pieces; `"".split(sep) == [""]`. -/
def pySplitChar (sep : Char) : Str → List Str
  | [] => [[]]
  | c :: t =>
    if c = sep then [] :: pySplitChar sep t
    else
      match pySplitChar sep t with
      | h :: r => (c :: h) :: r
      | [] => [[c]]

/-- Python ASCII `str.lower()` on one character. -/
def pyLowerChar (c : Char) : Char :=
  if 'A' ≤ c ∧ c ≤ 'Z' then Char.ofNat (c.toNat + 32) else c

/-- Python `str.lower()` (ASCII part, all the source needs). -/
def pyLower (s : Str) : Str := s.map pyLowerChar

/-- Is `p` a prefix of `s` (by characters)? -/
def isPrefOf : Str → Str → Bool
  | [], _ => true
  | _ :: _, [] => false
  | p :: ps, c :: cs => p = c ∧ isPrefOf ps cs

/-- Python `str.split(sep, 1)` for a non-empty separator, in the form
`some (before, after)` at the first occurrence of `sep`, `none` when `sep`
does not occur.  `s.split(sep, 1)` is `[before, after]` or `[s]`. -/
def splitOnceAux (sep : Str) : Str → Option (Str × Str)
  | [] => none
  | c :: t =>
    if isPrefOf sep (c :: t) then some ([], (c :: t).drop sep.length)
    else (splitOnceAux sep t).map (fun ab => (c :: ab.1, ab.2))

/-- Python's `sep in s` substring test (for non-empty `sep`). -/
def containsSub (sep s : Str) : Bool := (splitOnceAux sep s).isSome

/-- A Python dict, modelled as an association list: overwriting keeps the
key's original position, a new key is appended at the end. -/
def insertAssoc {α β : Type} [DecidableEq α] : List (α × β) → α → β → List (α × β)
  | [], k, v => [(k, v)]
  | (k', v') :: t, k, v =>
    if k' = k then (k, v) :: t else (k', v') :: insertAssoc t k v

/-- Lookup in an association list (first match, as in a Python dict). -/
def lookupAssoc {α β : Type} [DecidableEq α] : List (α × β) → α → Option β
  | [], _ => none
  | (k', v') :: t, k => if k' = k then some v' else lookupAssoc t k

/-- The decimal digit characters, for formatting numbers. -/
def digitCh : Nat → Char
  | 0 => '0' | 1 => '1' | 2 => '2' | 3 => '3' | 4 => '4'
  | 5 => '5' | 6 => '6' | 7 => '7' | 8 => '8' | _ => '9'

/-- Decimal digits of `n`, most significant first, by fuel-indexed division
(the fuel `n` itself always suffices). Empty for `n = 0`. -/
def natReprAux : Nat → Nat → Str
  | 0, _ => []
  | _ + 1, 0 => []
  | f + 1, n + 1 => natReprAux f ((n + 1) / 10) ++ [digitCh ((n + 1) % 10)]

/-- Python `str(n)` for a natural number. -/
def natRepr (n : Nat) : Str := if n = 0 then ['0'] else natReprAux n n

/-- Value of a string of decimal digits (Horner scan, as `int` computes it). -/
def digitsToNat (s : Str) : Nat := s.foldl (fun a c => a * 10 + (c.toNat - 48)) 0

/-- The regex class `\d` / Python `str.isdigit` on ASCII. -/
def isDig (c : Char) : Bool := '0' ≤ c ∧ c ≤ '9'

/-- Python `int(s)` for the strings this program feeds it: optional
surrounding whitespace around a non-empty run of decimal digits; anything
else raises (modelled as `none`).  (Signs and digit underscores, which
`int` also accepts, never occur in this program's inputs.) -/
def pyIntNat (s : Str) : Option Nat :=
  let t := pyStrip s
  if t ≠ [] ∧ t.all isDig then some (digitsToNat t) else none

-- ======================================================================
-- src/ufora_cli/timeedit_parser.py
-- ======================================================================

/-- One course entry of the timetable (`timeedit_parser.py`, lines 80-87). -/
structure TECourse where
  time_slot : Str
  course_code : Str
  course_name : Str
  course_type : Str
  location : Str
  professors : List Str
deriving DecidableEq, Repr

/-- The timetable mapping: a dict keyed by `(date string, week number)`. -/
abbrev Timetable := List ((Str × Nat) × List TECourse)

/-- `re.match` of the date-header pattern
`([A-Z][a-z])\s+W\s+(\d+)\s+(\d{2}-\d{2}-\d{4})` against the tail of the
line after the first ten characters of the date group: requires
`dd-dd-dddd` and returns that ten-character date group (trailing text is
allowed, as `re.match` only anchors the start). -/
def matchDateTail : Str → Option Str
  | a :: b :: '-' :: c :: d :: '-' :: e :: f :: g :: h :: _ =>
    if isDig a ∧ isDig b ∧ isDig c ∧ isDig d ∧
       isDig e ∧ isDig f ∧ isDig g ∧ isDig h then
      some [a, b, '-', c, d, '-', e, f, g, h]
    else none
  | _ => none

/-- Consume one-or-more whitespace characters (`\s+`), greedily. -/
def eatWs1 : Str → Option Str
  | [] => none
  | c :: t => if pyIsSpace c then some (t.dropWhile pyIsSpace) else none

/-- `re.match(r'([A-Z][a-z])\s+W\s+(\d+)\s+(\d{2}-\d{2}-\d{4})', line)`
(timeedit_parser.py line 13/27), returning the three groups
`(day abbreviation, int(week), date string)`.  Each quantifier here is
greedy and its character class is disjoint from what follows, so the
backtracking-free scan is exactly the regex. -/
def matchDateHeader (s : Str) : Option (Str × Nat × Str) :=
  match s with
  | c1 :: c2 :: r0 =>
    if ('A' ≤ c1 ∧ c1 ≤ 'Z') ∧ ('a' ≤ c2 ∧ c2 ≤ 'z') then
      match eatWs1 r0 with
      | some ('W' :: r1) =>
        match eatWs1 r1 with
        | some r2 =>
          if r2.takeWhile isDig = [] then none
          else
            match eatWs1 (r2.drop (r2.takeWhile isDig).length) with
            | some r3 =>
              (matchDateTail r3).map
                (fun date => ([c1, c2], digitsToNat (r2.takeWhile isDig), date))
            | none => none
        | none => none
      | _ => none
    else none
  | _ => none

/-- `re.match(r'^(\d{2}:\d{2}\s*-\s*\d{2}:\d{2})\s*,\s*(.*)$', line)`
(timeedit_parser.py line 43), returning `(group 1, group 2)`.  Group 1
keeps the whitespace it matched around the dash; group 2 is the rest of
the line after the comma and any following whitespace. -/
def matchCourseLine (s : Str) : Option (Str × Str) :=
  match s with
  | a :: b :: ':' :: c :: d :: r0 =>
    if isDig a ∧ isDig b ∧ isDig c ∧ isDig d then
      let ws1 := r0.takeWhile pyIsSpace
      match r0.drop ws1.length with
      | '-' :: r1 =>
        let ws2 := r1.takeWhile pyIsSpace
        match r1.drop ws2.length with
        | e :: f :: ':' :: g :: h :: r2 =>
          if isDig e ∧ isDig f ∧ isDig g ∧ isDig h then
            match r2.dropWhile pyIsSpace with
            | ',' :: r3 =>
              some ([a, b, ':', c, d] ++ ws1 ++ '-' :: ws2 ++ [e, f, ':', g, h],
                    r3.dropWhile pyIsSpace)
            | _ => none
          else none
        | _ => none
      | _ => none
    else none
  | _ => none

/-- The comma-separated, stripped fields after the time slot
(timeedit_parser.py line 51). -/
def teParts (rest : Str) : List Str := (pySplitChar ',' rest).map pyStrip

/-- Lines 59-65: the first field split on the first period into
`(course_code, course_name)`; both empty when there is no period (or,
unreachably, no field at all). -/
def teCodeName (parts : List Str) : Str × Str :=
  match parts with
  | [] => ([], [])
  | first :: _ =>
    match splitOnceAux ['.'] first with
    | some ab => (pyStrip ab.1, pyStrip ab.2)
    | none => ([], [])

/-- Lines 67-71: field `i` of the parts, stripped, empty when absent. -/
def teField (parts : List Str) (i : Nat) : Str :=
  match parts.get? i with
  | some p => pyStrip p
  | none => []

/-- Lines 74-78: the remaining fields kept as professors, dropping
empties and the literal `"none"` (case-insensitively). -/
def teProfessors (parts : List Str) : List Str :=
  (parts.drop 3).filterMap (fun p =>
    let p' := pyStrip p
    if p' ≠ [] ∧ pyLower p' ≠ ['n', 'o', 'n', 'e'] then some p' else none)

/-- Lines 47-87: the course entry built from a matched course line. -/
def mkTECourse (slot rest : Str) : TECourse :=
  let parts := teParts rest
  let cn := teCodeName parts
  { time_slot := slot
    course_code := cn.1
    course_name := cn.2
    course_type := teField parts 1
    location := teField parts 2
    professors := teProfessors parts }

/-- The loop state of `parse_timeedit_file`: the current date string and
week (both `None` before the first header), the current day's course list,
and the timetable dict built so far. -/
structure PState where
  curDate : Option Str
  curWeek : Option Nat
  curCourses : List TECourse
  tt : Timetable
deriving DecidableEq, Repr

def initPState : PState := ⟨none, none, [], []⟩

/-- Lines 30-32 and 92-94: flush the current day bucket into the
timetable, under Python's `if current_date_str and current_week is not
None and current_day_courses:` (truthiness: a date that is `None` or
empty fails, an empty course list fails). -/
def flushDay (st : PState) : Timetable :=
  match st.curDate, st.curWeek with
  | some d, some w =>
    if d ≠ [] ∧ st.curCourses ≠ [] then insertAssoc st.tt (d, w) st.curCourses
    else st.tt
  | _, _ => st.tt

/-- Lines 20-89: the body of the `for line in content.split('\n')` loop. -/
def stepLine (st : PState) (rawLine : Str) : PState :=
  let line := pyStrip rawLine
  if line = [] then st
  else
    match matchDateHeader line with
    | some dh =>
      { curDate := some dh.2.2
        curWeek := some dh.2.1
        curCourses := []
        tt := flushDay st }
    | none =>
      match matchCourseLine line with
      | some sr =>
        match st.curDate, st.curWeek with
        | some d, some w =>
          if d ≠ [] ∧ (some w).isSome then
            { st with curCourses := st.curCourses ++ [mkTECourse sr.1 sr.2] }
          else st
        | _, _ => st
      | none => st

/-- `parse_timeedit_file` applied to the already-split lines of the file. -/
def parseLines (lines : List Str) : Timetable :=
  flushDay (lines.foldl stepLine initPState)

/-- `parse_timeedit_file` (timeedit_parser.py lines 4-96), as a function of
the file's text content. -/
def parseTE (content : Str) : Timetable :=
  parseLines (pySplitChar '\n' content)

/-- The flattened JSON key `f"{date}|W{week}"` (line 104). -/
def flatKey (d : Str) (w : Nat) : Str := d ++ '|' :: 'W' :: natRepr w

/-- `save_timetable_json` (lines 99-107): the JSON object written, as an
association list built by the dict comprehension (duplicate flattened keys
would collapse, as in a Python dict). -/
def saveTimetableJson (tt : Timetable) : List (Str × List TECourse) :=
  tt.foldl (fun acc kv => insertAssoc acc (flatKey kv.1.1 kv.1.2) kv.2) []

/-- Line 120-121: recover `(date, week)` from a flattened key; `none`
models the exceptions `key_str.split('|')` unpacking or `int` would raise. -/
def unflatKey (k : Str) : Option (Str × Nat) :=
  match pySplitChar '|' k with
  | [d, w] => (pyIntNat (w.drop 1)).map (fun n => (d, n))
  | _ => none

def loadTimetableJsonAux : List (Str × List TECourse) → Timetable → Option Timetable
  | [], acc => some acc
  | (k, v) :: t, acc =>
    match unflatKey k with
    | some key => loadTimetableJsonAux t (insertAssoc acc key v)
    | none => none

/-- `load_timetable_json` (lines 110-124) applied to the JSON object that
was saved; JSON serialisation of the string/list values themselves is
lossless and is left implicit.  `none` models a raised exception. -/
def loadTimetableJson (l : List (Str × List TECourse)) : Option Timetable :=
  loadTimetableJsonAux l []

example : pyStrip (" ab c ".toList) = ("ab c".toList) := by decide
example : pySplitChar ',' ("a,,b".toList) = [['a'], [], ['b']] := by decide
example : natRepr 430 = ['4', '3', '0'] := by decide
example : (matchDateHeader ("Ma W 43 20-10-2025".toList)).isSome := by decide
example :
    matchDateHeader ("Ma W 43 20-10-2025".toList) =
      some (("Ma".toList), 43, ("20-10-2025".toList)) := by decide
example :
    matchCourseLine ("08:30 - 10:00 , C001. Systems, Lecture".toList) =
      some (("08:30 - 10:00".toList), ("C001. Systems, Lecture".toList)) := by decide
example : parseTE ("Ma W 43 20-10-2025\n".toList) = [] := by decide
example :
    parseTE ("Ma W 43 20-10-2025\n08:30 - 10:00 , C1. Sys, Lec, Room, Dr A\n".toList) =
      [((("20-10-2025".toList), 43),
        [{ time_slot := ("08:30 - 10:00".toList), course_code := ("C1".toList),
           course_name := ("Sys".toList), course_type := ("Lec".toList),
           location := ("Room".toList), professors := [("Dr A".toList)] }])] := by decide

-- ======================================================================
-- Association-list (Python dict) lemmas
-- ======================================================================

theorem mem_insertAssoc {α β : Type} [DecidableEq α] (l : List (α × β)) (k : α)
    (v : β) (x : α × β) (hx : x ∈ insertAssoc l k v) : x = (k, v) ∨ x ∈ l := by
  induction l with
  | nil => simpa [insertAssoc] using hx
  | cons hd t ih =>
    rcases hd with ⟨k', v'⟩
    by_cases h : k' = k
    · rw [insertAssoc, if_pos h] at hx
      rcases List.mem_cons.mp hx with h1 | h1
      · exact Or.inl h1
      · exact Or.inr (List.mem_cons_of_mem _ h1)
    · rw [insertAssoc, if_neg h] at hx
      rcases List.mem_cons.mp hx with h1 | h1
      · exact Or.inr (by simp [h1])
      · rcases ih h1 with h2 | h2
        · exact Or.inl h2
        · exact Or.inr (List.mem_cons_of_mem _ h2)

theorem insertAssoc_map_fst {α β : Type} [DecidableEq α] (l : List (α × β))
    (k : α) (v : β) :
    (insertAssoc l k v).map Prod.fst =
      if k ∈ l.map Prod.fst then l.map Prod.fst else l.map Prod.fst ++ [k] := by
  induction l with
  | nil => simp [insertAssoc]
  | cons hd t ih =>
    rcases hd with ⟨k', v'⟩
    by_cases h : k' = k
    · subst h
      simp [insertAssoc]
    · rw [insertAssoc, if_neg h]
      by_cases hmem : k ∈ t.map Prod.fst
      · simp [hmem, ih, Ne.symm h]
      · simp [hmem, ih, Ne.symm h]

theorem insertAssoc_nodup_keys {α β : Type} [DecidableEq α] (l : List (α × β))
    (k : α) (v : β) (h : (l.map Prod.fst).Nodup) :
    ((insertAssoc l k v).map Prod.fst).Nodup := by
  rw [insertAssoc_map_fst]
  by_cases hmem : k ∈ l.map Prod.fst
  · simpa [hmem] using h
  · rw [if_neg hmem]
    refine List.Nodup.append h (List.nodup_singleton k) ?_
    intro a ha hb
    rcases List.mem_singleton.mp hb with rfl
    exact hmem ha

theorem insertAssoc_not_mem {α β : Type} [DecidableEq α] (l : List (α × β))
    (k : α) (v : β) (h : k ∉ l.map Prod.fst) : insertAssoc l k v = l ++ [(k, v)] := by
  induction l with
  | nil => simp [insertAssoc]
  | cons hd t ih =>
    rcases hd with ⟨k', v'⟩
    have hne : k' ≠ k := by
      intro he; exact h (by simp [he])
    rw [insertAssoc, if_neg hne, ih (fun hm => h (by simp [hm]))]
    simp

-- ======================================================================
-- C7: no empty day bucket is ever stored
-- ======================================================================

/-- Values stored in the timetable built so far are all non-empty. -/
def ValsNe (tt : Timetable) : Prop := ∀ kv ∈ tt, kv.2 ≠ ([] : List TECourse)

theorem flushDay_valsNe (st : PState) (h : ValsNe st.tt) : ValsNe (flushDay st) := by
  unfold flushDay
  intro kv hkv
  split at hkv
  · split at hkv
    · rcases mem_insertAssoc _ _ _ _ hkv with h1 | h1
      · rename_i d w hguard
        rw [h1]
        exact hguard.2
      · exact h kv h1
    · exact h kv hkv
  · exact h kv hkv

theorem stepLine_valsNe (st : PState) (l : Str) (h : ValsNe st.tt) :
    ValsNe (stepLine st l).tt := by
  obtain ⟨cd, cw, cc, tt⟩ := st
  by_cases he : pyStrip l = []
  · simpa [stepLine, he] using h
  · rcases hh : matchDateHeader (pyStrip l) with _ | dh
    · rcases hc : matchCourseLine (pyStrip l) with _ | sr
      · simpa [stepLine, he, hh, hc] using h
      · cases cd with
        | none => simpa [stepLine, he, hh, hc] using h
        | some d =>
          cases cw with
          | none => simpa [stepLine, he, hh, hc] using h
          | some w =>
            by_cases hg : d = []
            · simpa [stepLine, he, hh, hc, hg] using h
            · simpa [stepLine, he, hh, hc, hg] using h
    · have h2 := flushDay_valsNe ⟨cd, cw, cc, tt⟩ h
      simpa [stepLine, he, hh] using h2

theorem foldl_stepLine_valsNe (lines : List Str) (st : PState) (h : ValsNe st.tt) :
    ValsNe (lines.foldl stepLine st).tt := by
  induction lines generalizing st with
  | nil => exact h
  | cons a t ih => exact ih (stepLine st a) (stepLine_valsNe st a h)

/-- Claim C7: `parse_timeedit_file` never stores an empty day bucket — every
value list in its result is non-empty — and in particular the input that is
just the header line `"Ma W 43 20-10-2025\n"` parses to the empty mapping. -/
theorem claim_C7 :
    (∀ (content : Str) (k : Str × Nat) (v : List TECourse),
        (k, v) ∈ parseTE content → v ≠ []) ∧
      parseTE (("Ma W 43 20-10-2025\n").toList) = [] := by
  constructor
  · intro content k v hmem
    have h1 : ValsNe (parseTE content) := by
      unfold parseTE parseLines
      exact flushDay_valsNe _ (foldl_stepLine_valsNe _ initPState (by simp [ValsNe, initPState]))
    exact h1 (k, v) hmem
  · decide

-- ======================================================================
-- C9: course lines before the first date header are discarded
-- ======================================================================

theorem stepLine_init_of_no_header (l : Str)
    (h : matchDateHeader (pyStrip l) = none) : stepLine initPState l = initPState := by
  by_cases he : pyStrip l = []
  · simp [stepLine, he]
  · rcases hc : matchCourseLine (pyStrip l) with _ | sr
    · simp [stepLine, he, h, hc]
    · simp [stepLine, he, h, hc, initPState]

/-- Claim C9: lines preceding the first date-header line never contribute to
the result — in particular any course line there is silently discarded, as a
course entry is only recorded once a date and week are established. -/
theorem claim_C9 (pre rest : List Str)
    (h : ∀ l ∈ pre, matchDateHeader (pyStrip l) = none) :
    parseLines (pre ++ rest) = parseLines rest := by
  unfold parseLines
  have hst : (pre ++ rest).foldl stepLine initPState = rest.foldl stepLine initPState := by
    induction pre with
    | nil => simp
    | cons a t ih =>
      rw [List.cons_append, List.foldl_cons,
        stepLine_init_of_no_header a (h a (List.mem_cons_self a t))]
      exact ih (fun l hl => h l (List.mem_cons_of_mem _ hl))
  rw [hst]

theorem claim_C9_witness :
    (∀ l ∈ [("08:30 - 10:00 , C1. Sys, Lec, Room, Dr A").toList],
        matchDateHeader (pyStrip l) = none) ∧
      parseLines ([("08:30 - 10:00 , C1. Sys, Lec, Room, Dr A").toList] ++
          [("Ma W 43 20-10-2025").toList,
           ("08:30 - 10:00 , C1. Sys, Lec, Room, Dr A").toList]) =
        parseLines [("Ma W 43 20-10-2025").toList,
           ("08:30 - 10:00 , C1. Sys, Lec, Room, Dr A").toList] :=
  ⟨by decide, claim_C9 _ _ (by decide)⟩

-- ======================================================================
-- C10: a first field without a period gives empty code and name
-- ======================================================================

theorem matchCourseLine_shape (s : Str) (x : Str × Str)
    (h : matchCourseLine s = some x) :
    ∃ a b c d r, s = a :: b :: ':' :: c :: d :: r ∧ isDig a = true := by
  unfold matchCourseLine at h
  split at h
  · rename_i a b c d r0
    split at h
    · rename_i hdig
      exact ⟨a, b, c, d, r0, rfl, by simp [hdig.1]⟩
    · exact absurd h (by simp)
  · exact absurd h (by simp)

theorem matchDateHeader_none_of_digit (a b : Char) (r : Str) (ha : isDig a = true) :
    matchDateHeader (a :: b :: r) = none := by
  have hnot : ¬ (('A' ≤ a ∧ a ≤ 'Z') ∧ ('a' ≤ b ∧ b ≤ 'z')) := by
    rintro ⟨⟨h1, -⟩, -⟩
    have h9 : a ≤ '9' := by
      have := of_decide_eq_true ha
      exact this.2
    have : ('A' : Char) ≤ '9' := le_trans h1 h9
    exact absurd this (by decide)
  simp [matchDateHeader, hnot]

theorem splitOnceAux_single_none (c0 : Char) (s : Str) (h : c0 ∉ s) :
    splitOnceAux [c0] s = none := by
  induction s with
  | nil => rfl
  | cons c t ih =>
    have hne : ¬ (isPrefOf [c0] (c :: t) = true) := by
      simp only [isPrefOf]
      intro hp
      have := of_decide_eq_true hp
      exact h (by simp [this.1])
    rw [splitOnceAux, if_neg hne, ih (fun hm => h (List.mem_cons_of_mem _ hm))]
    rfl

/-- Claim C10: when the first comma-separated field of a course line has no
period, the entry is still appended to the current day's list, with
`course_code` and `course_name` both empty and the time slot, type, location
and professors filled from the matched groups and remaining fields as usual. -/
theorem claim_C10 (st : PState) (rawLine slot rest : Str) (d : Str) (w : Nat)
    (first : Str) (others : List Str)
    (hd : st.curDate = some d) (hdne : d ≠ []) (hw : st.curWeek = some w)
    (hm : matchCourseLine (pyStrip rawLine) = some (slot, rest))
    (hp : teParts rest = first :: others)
    (hnodot : ('.' : Char) ∉ first) :
    stepLine st rawLine =
      { st with curCourses := st.curCourses ++
          [{ time_slot := slot, course_code := [], course_name := [],
             course_type := teField (first :: others) 1,
             location := teField (first :: others) 2,
             professors := teProfessors (first :: others) }] } := by
  obtain ⟨a, b, c, d', r, hshape, hdig⟩ := matchCourseLine_shape _ _ hm
  have he : pyStrip rawLine ≠ [] := by
    rw [hshape]; simp
  have hh : matchDateHeader (pyStrip rawLine) = none := by
    rw [hshape]; exact matchDateHeader_none_of_digit _ _ _ hdig
  have hcn : teCodeName (first :: others) = ([], []) := by
    simp [teCodeName, splitOnceAux_single_none '.' first hnodot]
  have hcourse : mkTECourse slot rest =
      { time_slot := slot, course_code := [], course_name := [],
        course_type := teField (first :: others) 1,
        location := teField (first :: others) 2,
        professors := teProfessors (first :: others) } := by
    simp only [mkTECourse, hp, hcn]
  rw [← hcourse]
  simp [stepLine, he, hh, hm, hd, hw, hdne]

theorem claim_C10_witness :
    matchCourseLine (pyStrip (("08:30 - 10:00 , NoDotCourse, Lecture, Aud 3, Dr Who").toList)) =
      some ((("08:30 - 10:00").toList), (("NoDotCourse, Lecture, Aud 3, Dr Who").toList)) ∧
    ('.' : Char) ∉ ("NoDotCourse").toList ∧
    stepLine ⟨some (("20-10-2025").toList), some 43, [], []⟩
        (("08:30 - 10:00 , NoDotCourse, Lecture, Aud 3, Dr Who").toList) =
      { curDate := some (("20-10-2025").toList), curWeek := some 43,
        curCourses := [] ++
          [{ time_slot := ("08:30 - 10:00").toList, course_code := [], course_name := [],
             course_type := teField [("NoDotCourse").toList, ("Lecture").toList,
               ("Aud 3").toList, ("Dr Who").toList] 1,
             location := teField [("NoDotCourse").toList, ("Lecture").toList,
               ("Aud 3").toList, ("Dr Who").toList] 2,
             professors := teProfessors [("NoDotCourse").toList, ("Lecture").toList,
               ("Aud 3").toList, ("Dr Who").toList] }],
        tt := [] } :=
  ⟨by decide, by decide,
    claim_C10 ⟨some (("20-10-2025").toList), some 43, [], []⟩
      (("08:30 - 10:00 , NoDotCourse, Lecture, Aud 3, Dr Who").toList)
      (("08:30 - 10:00").toList)
      (("NoDotCourse, Lecture, Aud 3, Dr Who").toList)
      (("20-10-2025").toList) 43
      (("NoDotCourse").toList)
      [("Lecture").toList, ("Aud 3").toList, ("Dr Who").toList]
      rfl (by decide) rfl (by decide) (by decide) (by decide)⟩

-- ======================================================================
-- C2: the save/load JSON round trip
-- ======================================================================

theorem digitCh_toNat (d : Nat) (h : d < 10) : (digitCh d).toNat = 48 + d := by
  interval_cases d <;> decide

theorem isDig_digitCh (d : Nat) : isDig (digitCh d) = true := by
  match d with
  | 0 | 1 | 2 | 3 | 4 | 5 | 6 | 7 | 8 => rfl
  | n + 9 => rfl

theorem digitsToNat_append (a : Str) (c : Char) :
    digitsToNat (a ++ [c]) = digitsToNat a * 10 + (c.toNat - 48) := by
  simp [digitsToNat, List.foldl_append]

theorem natReprAux_spec : ∀ f n : Nat, n ≤ f →
    (∀ c ∈ natReprAux f n, isDig c = true) ∧ digitsToNat (natReprAux f n) = n ∧
      (n ≠ 0 → natReprAux f n ≠ []) := by
  intro f
  induction f with
  | zero =>
    intro n hn
    interval_cases n
    exact ⟨by simp [natReprAux], by simp [natReprAux, digitsToNat], by simp⟩
  | succ f ih =>
    intro n hn
    match n with
    | 0 => exact ⟨by simp [natReprAux], by simp [natReprAux, digitsToNat], by simp⟩
    | m + 1 =>
      have hdiv : (m + 1) / 10 ≤ f := by
        have h1 : (m + 1) / 10 < m + 1 := Nat.div_lt_self (Nat.succ_pos m) (by norm_num)
        omega
      obtain ⟨ha, hb, -⟩ := ih ((m + 1) / 10) hdiv
      refine ⟨?_, ?_, ?_⟩
      · intro c hc
        rw [natReprAux] at hc
        rcases List.mem_append.mp hc with h1 | h1
        · exact ha c h1
        · rcases List.mem_singleton.mp h1 with rfl
          exact isDig_digitCh _
      · rw [natReprAux, digitsToNat_append, hb,
          digitCh_toNat _ (Nat.mod_lt _ (by norm_num))]
        omega
      · intro _
        rw [natReprAux]
        simp

theorem natRepr_spec (n : Nat) :
    (∀ c ∈ natRepr n, isDig c = true) ∧ digitsToNat (natRepr n) = n ∧ natRepr n ≠ [] := by
  by_cases h : n = 0
  · subst h
    exact ⟨by decide, by decide, by decide⟩
  · unfold natRepr
    rw [if_neg h]
    obtain ⟨a, b, c⟩ := natReprAux_spec n n le_rfl
    exact ⟨a, b, c h⟩

theorem isDig_not_space (c : Char) (h : isDig c = true) : pyIsSpace c = false := by
  cases hs : pyIsSpace c
  · rfl
  · exfalso
    rcases of_decide_eq_true hs with h1 | h1 | h1 | h1 | h1 | h1 <;>
      (subst h1; exact absurd h (by decide))

theorem dropWhile_eq_self_of_none (p : Char → Bool) (s : Str)
    (h : ∀ c ∈ s, p c = false) : s.dropWhile p = s := by
  cases s with
  | nil => rfl
  | cons c t =>
    rw [List.dropWhile_cons, h c (List.mem_cons_self _ _)]
    simp

theorem pyStrip_of_no_space (s : Str) (h : ∀ c ∈ s, pyIsSpace c = false) :
    pyStrip s = s := by
  unfold pyStrip
  rw [dropWhile_eq_self_of_none _ s h,
    dropWhile_eq_self_of_none _ s.reverse (fun c hc => h c (List.mem_reverse.mp hc)),
    List.reverse_reverse]

theorem pyIntNat_natRepr (w : Nat) : pyIntNat (natRepr w) = some w := by
  obtain ⟨ha, hb, hc⟩ := natRepr_spec w
  have hstrip : pyStrip (natRepr w) = natRepr w :=
    pyStrip_of_no_space _ (fun c hc2 => isDig_not_space c (ha c hc2))
  unfold pyIntNat
  simp only [hstrip]
  rw [if_pos ⟨hc, List.all_eq_true.mpr ha⟩, hb]

theorem pySplitChar_no_sep (sep : Char) (s : Str) (h : sep ∉ s) :
    pySplitChar sep s = [s] := by
  induction s with
  | nil => rfl
  | cons c t ih =>
    have h1 : ¬ (c = sep) := fun he => h (by simp [he])
    rw [pySplitChar, if_neg h1, ih (fun hm => h (List.mem_cons_of_mem _ hm))]

theorem pySplitChar_append_sep (sep : Char) (a b : Str) (h : sep ∉ a) :
    pySplitChar sep (a ++ sep :: b) = a :: pySplitChar sep b := by
  induction a with
  | nil => simp [pySplitChar]
  | cons c t ih =>
    have h1 : ¬ (c = sep) := fun he => h (by simp [he])
    have ih2 := ih (fun hm => h (List.mem_cons_of_mem _ hm))
    rw [List.cons_append, pySplitChar, if_neg h1, ih2]

theorem natRepr_no_bar (w : Nat) : ('|' : Char) ∉ natRepr w := by
  intro hm
  have := (natRepr_spec w).1 _ hm
  exact absurd this (by decide)

theorem unflatKey_flatKey (d : Str) (w : Nat) (h : ('|' : Char) ∉ d) :
    unflatKey (flatKey d w) = some (d, w) := by
  unfold flatKey unflatKey
  have hns : ('|' : Char) ∉ 'W' :: natRepr w := by
    intro hm
    rcases List.mem_cons.mp hm with h1 | h1
    · exact absurd h1 (by decide)
    · exact natRepr_no_bar w h1
  rw [pySplitChar_append_sep '|' d ('W' :: natRepr w) h,
    pySplitChar_no_sep '|' ('W' :: natRepr w) hns]
  simp [pyIntNat_natRepr]

theorem flatKey_inj (d1 : Str) (w1 : Nat) (d2 : Str) (w2 : Nat)
    (h1 : ('|' : Char) ∉ d1) (h2 : ('|' : Char) ∉ d2)
    (he : flatKey d1 w1 = flatKey d2 w2) : (d1, w1) = (d2, w2) := by
  have hu := unflatKey_flatKey d1 w1 h1
  rw [he, unflatKey_flatKey d2 w2 h2] at hu
  exact (Option.some.inj hu).symm

/-- The structural facts about the timetable dict that make the JSON
round-trip lossless: keys are distinct and no date contains `'|'`. -/
def KeysGood (tt : Timetable) : Prop :=
  (tt.map Prod.fst).Nodup ∧ ∀ kv ∈ tt, ('|' : Char) ∉ kv.1.1

/-- The loop invariant: the dict built so far is good and the current date,
when set, contains no `'|'` (it always came from the date regex). -/
def StGood (st : PState) : Prop :=
  KeysGood st.tt ∧ ∀ d, st.curDate = some d → ('|' : Char) ∉ d

theorem matchDateTail_no_bar (r date : Str) (h : matchDateTail r = some date) :
    ('|' : Char) ∉ date := by
  unfold matchDateTail at h
  split at h
  · split at h
    · rename_i x1 x2 x3 x4 x5 x6 x7 x8 rest hcond
      obtain ⟨h1, h2, h3, h4, h5, h6, h7, h8⟩ := hcond
      injection h with h9
      subst h9
      intro hm
      simp only [List.mem_cons, List.not_mem_nil, or_false] at hm
      rcases hm with h0 | h0 | h0 | h0 | h0 | h0 | h0 | h0 | h0 | h0
      · rw [← h0] at h1; exact absurd h1 (by decide)
      · rw [← h0] at h2; exact absurd h2 (by decide)
      · exact absurd h0 (by decide)
      · rw [← h0] at h3; exact absurd h3 (by decide)
      · rw [← h0] at h4; exact absurd h4 (by decide)
      · exact absurd h0 (by decide)
      · rw [← h0] at h5; exact absurd h5 (by decide)
      · rw [← h0] at h6; exact absurd h6 (by decide)
      · rw [← h0] at h7; exact absurd h7 (by decide)
      · rw [← h0] at h8; exact absurd h8 (by decide)
    · exact absurd h (by simp)
  · exact absurd h (by simp)

theorem matchDateHeader_no_bar (s : Str) (t : Str × Nat × Str)
    (h : matchDateHeader s = some t) : ('|' : Char) ∉ t.2.2 := by
  unfold matchDateHeader at h
  split at h
  · split at h
    · split at h
      · split at h
        · split at h
          · exact absurd h (by simp)
          · split at h
            · rename_i r3 hr3
              rcases Option.map_eq_some'.mp h with ⟨date, hdate, hteq⟩
              rw [← hteq]
              exact matchDateTail_no_bar _ _ hdate
            · exact absurd h (by simp)
        · exact absurd h (by simp)
      · exact absurd h (by simp)
    · exact absurd h (by simp)
  · exact absurd h (by simp)

theorem flushDay_keysGood (st : PState) (h : StGood st) : KeysGood (flushDay st) := by
  obtain ⟨⟨hnd, hmem⟩, hcd⟩ := h
  obtain ⟨cd, cw, cc, tt⟩ := st
  cases cd with
  | none => exact ⟨hnd, hmem⟩
  | some d =>
    cases cw with
    | none => exact ⟨hnd, hmem⟩
    | some w =>
      by_cases hg : d ≠ [] ∧ cc ≠ []
      · simp only [flushDay, if_pos hg]
        refine ⟨insertAssoc_nodup_keys _ _ _ hnd, ?_⟩
        intro kv hkv
        rcases mem_insertAssoc _ _ _ _ hkv with h1 | h1
        · rw [h1]
          exact hcd d rfl
        · exact hmem kv h1
      · simp only [flushDay, if_neg hg]
        exact ⟨hnd, hmem⟩

theorem stepLine_stGood (st : PState) (l : Str) (h : StGood st) :
    StGood (stepLine st l) := by
  by_cases he : pyStrip l = []
  · simpa [stepLine, he] using h
  · rcases hh : matchDateHeader (pyStrip l) with _ | dh
    · rcases hc : matchCourseLine (pyStrip l) with _ | sr
      · simpa [stepLine, he, hh, hc] using h
      · obtain ⟨cd, cw, cc, tt⟩ := st
        cases cd with
        | none => simpa [stepLine, he, hh, hc] using h
        | some d =>
          cases cw with
          | none => simpa [stepLine, he, hh, hc] using h
          | some w =>
            by_cases hg : d = []
            · simpa [stepLine, he, hh, hc, hg] using h
            · have h2 : StGood ⟨some d, some w, cc ++ [mkTECourse sr.1 sr.2], tt⟩ :=
                ⟨h.1, h.2⟩
              simpa [stepLine, he, hh, hc, hg] using h2
    · have hbar := matchDateHeader_no_bar _ _ hh
      have h2 : StGood ⟨some dh.2.2, some dh.2.1, [], flushDay st⟩ := by
        refine ⟨flushDay_keysGood st h, ?_⟩
        intro d hd
        injection hd with hd2
        rw [← hd2]
        exact hbar
      simpa [stepLine, he, hh] using h2

theorem foldl_stepLine_stGood (lines : List Str) (st : PState) (h : StGood st) :
    StGood (lines.foldl stepLine st) := by
  induction lines generalizing st with
  | nil => exact h
  | cons a t ih => exact ih (stepLine st a) (stepLine_stGood st a h)

theorem parseTE_keysGood (content : Str) : KeysGood (parseTE content) := by
  unfold parseTE parseLines
  refine flushDay_keysGood _ (foldl_stepLine_stGood _ initPState ⟨⟨?_, ?_⟩, ?_⟩) <;>
    simp [initPState]

theorem save_foldl (tt : Timetable) : ∀ acc : List (Str × List TECourse),
    (tt.map (fun kv => flatKey kv.1.1 kv.1.2)).Nodup →
    (∀ kv ∈ tt, flatKey kv.1.1 kv.1.2 ∉ acc.map Prod.fst) →
    tt.foldl (fun acc kv => insertAssoc acc (flatKey kv.1.1 kv.1.2) kv.2) acc =
      acc ++ tt.map (fun kv => (flatKey kv.1.1 kv.1.2, kv.2)) := by
  induction tt with
  | nil => intro acc _ _; simp
  | cons kv0 t ih =>
    intro acc hnd hdisj
    rw [List.foldl_cons,
      insertAssoc_not_mem _ _ _ (hdisj kv0 (List.mem_cons_self _ _))]
    rw [List.map_cons] at hnd
    obtain ⟨hnotin, hndt⟩ := List.nodup_cons.mp hnd
    rw [ih (acc ++ [(flatKey kv0.1.1 kv0.1.2, kv0.2)]) hndt ?_]
    · simp
    · intro kv hm
      rw [List.map_append]
      simp only [List.mem_append]
      rintro (h1 | h1)
      · exact hdisj kv (List.mem_cons_of_mem _ hm) h1
      · simp only [List.map_cons, List.map_nil, List.mem_singleton] at h1
        exact hnotin (h1 ▸ List.mem_map_of_mem (fun kv => flatKey kv.1.1 kv.1.2) hm)

theorem loadAux_spec (tt : Timetable) : ∀ acc : Timetable,
    (∀ kv ∈ tt, ('|' : Char) ∉ kv.1.1) →
    (tt.map Prod.fst).Nodup →
    (∀ kv ∈ tt, kv.1 ∉ acc.map Prod.fst) →
    loadTimetableJsonAux (tt.map (fun kv => (flatKey kv.1.1 kv.1.2, kv.2))) acc =
      some (acc ++ tt) := by
  induction tt with
  | nil => intro acc _ _ _; simp [loadTimetableJsonAux]
  | cons kv0 t ih =>
    intro acc hbar hnd hdisj
    rw [List.map_cons]
    have hu : unflatKey (flatKey kv0.1.1 kv0.1.2) = some kv0.1 := by
      rw [unflatKey_flatKey _ _ (hbar kv0 (List.mem_cons_self _ _))]
    simp only [loadTimetableJsonAux, hu]
    rw [insertAssoc_not_mem _ _ _ (hdisj kv0 (List.mem_cons_self _ _))]
    rw [List.map_cons] at hnd
    obtain ⟨hnotin, hndt⟩ := List.nodup_cons.mp hnd
    rw [ih (acc ++ [(kv0.1, kv0.2)])
      (fun kv hm => hbar kv (List.mem_cons_of_mem _ hm)) hndt ?_]
    · simp
    · intro kv hm
      rw [List.map_append]
      simp only [List.mem_append]
      rintro (h1 | h1)
      · exact hdisj kv (List.mem_cons_of_mem _ hm) h1
      · simp only [List.map_cons, List.map_nil, List.mem_singleton] at h1
        exact hnotin (h1 ▸ List.mem_map_of_mem Prod.fst hm)

/-- Claim C2: for any timetable produced by `parse_timeedit_file`,
`load_timetable_json (save_timetable_json T)` recovers `T` exactly: the
composite key is flattened to `"<date>|W<week>"` on save and recovered on
load, and every value list is preserved unchanged. -/
theorem claim_C2 (content : Str) :
    loadTimetableJson (saveTimetableJson (parseTE content)) = some (parseTE content) := by
  obtain ⟨hnd, hgood⟩ := parseTE_keysGood content
  have hmap : (parseTE content).map (fun kv => flatKey kv.1.1 kv.1.2) =
      ((parseTE content).map Prod.fst).map (fun k => flatKey k.1 k.2) := by
    rw [List.map_map]
    rfl
  have hflat : ((parseTE content).map (fun kv => flatKey kv.1.1 kv.1.2)).Nodup := by
    rw [hmap]
    refine List.Nodup.map_on ?_ hnd
    intro k1 hk1 k2 hk2 he
    obtain ⟨kv1, hkv1, rfl⟩ := List.mem_map.mp hk1
    obtain ⟨kv2, hkv2, rfl⟩ := List.mem_map.mp hk2
    exact flatKey_inj _ _ _ _ (hgood kv1 hkv1) (hgood kv2 hkv2) he
  have hs : saveTimetableJson (parseTE content) =
      (parseTE content).map (fun kv => (flatKey kv.1.1 kv.1.2, kv.2)) :=
    save_foldl _ [] hflat (by simp)
  rw [hs]
  unfold loadTimetableJson
  have hl := loadAux_spec (parseTE content) [] hgood hnd (by simp)
  simpa using hl

-- ======================================================================
-- src/ufora_cli/cli.py — course directory (get_courses)
-- ======================================================================

def BASE_URL : Str := ("https://ufora.ugent.be").toList

/-- A course record as `get_courses` builds it (cli.py lines 359-367). -/
structure Course where
  title : Str
  url : Str
  content_url : Str
  id : Str
  code : Str
  name : Str
  start : Str
deriving DecidableEq, Repr

/-- The `OrgUnit` object of one enrollment item: `Id` (a positive integer
when present, `str(org_unit.get('Id', ''))` gives `""` when absent),
`Name`, `Code`, and `Type.Id` (`none` models any missing level of
`org_unit.get('Type', {}).get('Id')`). -/
structure OrgUnit where
  id : Option Nat
  name : Str
  code : Str
  typeId : Option Nat
deriving DecidableEq, Repr

/-- The `Access` object: truthiness of `access.get('IsActive')` and
`access.get('StartDate', '')`. -/
structure Access where
  isActive : Bool
  startDate : Str
deriving DecidableEq, Repr

/-- One item of the enrollment API's `Items` list. -/
structure Enrollment where
  orgUnit : OrgUnit
  access : Access
deriving DecidableEq, Repr

/-- `str(org_unit.get('Id', ''))` (cli.py line 346). -/
def courseIdStr : Option Nat → Str
  | some n => natRepr n
  | none => []

/-- Lines 351-352: `if " - " in course_name: course_name =
course_name.split(" - ", 1)[1]`. -/
def stripNameDash (raw : Str) : Str :=
  if containsSub ([' ', '-', ' ']) raw then
    match splitOnceAux ([' ', '-', ' ']) raw with
    | some ab => ab.2
    | none => raw
  else raw

/-- Lines 354-357: the derived title. -/
def mkTitle (code name : Str) : Str :=
  if code ≠ [] ∧ code ≠ name then code ++ (" - ").toList ++ name else name

/-- Lines 340-367: the filter (course offerings, `Type.Id == 3`, active)
and the course record built from one enrollment item; `none` when the
item is filtered out. -/
def processEnrollment (e : Enrollment) : Option Course :=
  if e.orgUnit.typeId = some 3 ∧ e.access.isActive then
    some { title := mkTitle e.orgUnit.code (stripNameDash e.orgUnit.name)
           url := BASE_URL ++ ("/d2l/home/").toList ++ courseIdStr e.orgUnit.id
           content_url := BASE_URL ++ ("/d2l/le/content/").toList ++
             courseIdStr e.orgUnit.id ++ ("/Home").toList
           id := courseIdStr e.orgUnit.id
           code := e.orgUnit.code
           name := stripNameDash e.orgUnit.name
           start := e.access.startDate }
  else none

/-- The decoded JSON of one API page: `Items` (default `[]`),
`PagingInfo.HasMoreItems` (default `False`), `PagingInfo.Bookmark`
(default `None`). -/
structure PageBody where
  items : List Enrollment
  hasMore : Bool
  bookmark : Option Str
deriving DecidableEq, Repr

instance exceptDecEq {ε α : Type} [DecidableEq ε] [DecidableEq α] :
    DecidableEq (Except ε α)
  | Except.error a, Except.error b =>
    if h : a = b then isTrue (by rw [h]) else isFalse (by simp [h])
  | Except.error _, Except.ok _ => isFalse (by simp)
  | Except.ok _, Except.error _ => isFalse (by simp)
  | Except.ok a, Except.ok b =>
    if h : a = b then isTrue (by rw [h]) else isFalse (by simp [h])

/-- An HTTP response: its status code and what `.json()` yields
(`.error` models a raised decode exception). -/
structure Resp where
  status : Nat
  body : Except Str PageBody
deriving DecidableEq, Repr

/-- The accepted course records of one page (line 340's loop body). -/
def pageCourses (pb : PageBody) : List Course := pb.items.filterMap processEnrollment

def apiVersions : List Str :=
  [("1.28").toList, ("1.9").toList, ("1.8").toList, ("1.4").toList, ("1.0").toList]

/-- `f"{BASE_URL}/d2l/api/lp/{version}/enrollments/myenrollments/"` (line 327). -/
def apiUrlOf (v : Str) : Str :=
  BASE_URL ++ ("/d2l/api/lp/").toList ++ v ++ ("/enrollments/myenrollments/").toList

/-- The query string appended for the next page (line 374). -/
def bookmarkQuery (b : Str) : Str := ("?Bookmark=").toList ++ b

/-- Lines 326-330: try API versions in order until one returns HTTP 200;
result is the working `(api_url, response)` (or `none` when every version
failed without raising, in which case line 332 returns `[]`), paired with
the list of request URLs issued.  A transport exception (`.error`)
propagates to the surrounding `try`. -/
def probeVersions (g : Str → Except Str Resp) :
    List Str → Except Str (Option (Str × Resp)) × List Str
  | [] => (Except.ok none, [])
  | v :: rest =>
    match g (apiUrlOf v) with
    | Except.error e => (Except.error e, [apiUrlOf v])
    | Except.ok r =>
      if r.status = 200 then (Except.ok (some (apiUrlOf v, r)), [apiUrlOf v])
      else
        ((probeVersions g rest).1, apiUrlOf v :: (probeVersions g rest).2)

/-- Lines 337-381: the `while response:` pagination loop, entered with the
probe's response.  The loop condition is the requests truthiness of
`response` (`None` or status ≥ 400 ends the loop); each iteration decodes
the body (a decode error raises), accumulates the page's accepted courses,
and when `HasMoreItems` with a bookmark is present issues one request for
`api_url + "?Bookmark=" + bookmark`.  The result pairs the outcome (the
accumulated course list, or the exception) with the request URLs issued by
the loop; the `fuel` argument only bounds the recursion depth the model
can take and is always chosen large enough. -/
def whileLoop (g : Str → Except Str Resp) (apiUrl : Str) :
    Nat → Option Resp → Except Str (List Course) × List Str
  | _, none => (Except.ok [], [])
  | 0, some r =>
    if 400 ≤ r.status then (Except.ok [], [])
    else
      match r.body with
      | Except.error e => (Except.error e, [])
      | Except.ok pb =>
        if pb.hasMore then
          match pb.bookmark with
          | some _ => (Except.error (("model: fuel exhausted").toList), [])
          | none => (Except.ok (pageCourses pb), [])
        else (Except.ok (pageCourses pb), [])
  | f + 1, some r =>
    if 400 ≤ r.status then (Except.ok [], [])
    else
      match r.body with
      | Except.error e => (Except.error e, [])
      | Except.ok pb =>
        if pb.hasMore then
          match pb.bookmark with
          | some b =>
            match g (apiUrl ++ bookmarkQuery b) with
            | Except.error e => (Except.error e, [apiUrl ++ bookmarkQuery b])
            | Except.ok r2 =>
              ((whileLoop g apiUrl f (some r2)).1.map (fun cs => pageCourses pb ++ cs),
               (apiUrl ++ bookmarkQuery b) :: (whileLoop g apiUrl f (some r2)).2)
          | none => (Except.ok (pageCourses pb), [])
        else (Except.ok (pageCourses pb), [])

/-- The body of `get_courses` inside its `try` (lines 317-383): version
probe, the `if not response or status != 200: return []` check, then the
pagination loop.  Paired with the full request trace. -/
def getCoursesBody (g : Str → Except Str Resp) (fuel : Nat) :
    Except Str (List Course) × List Str :=
  match probeVersions g apiVersions with
  | (Except.error e, tr) => (Except.error e, tr)
  | (Except.ok none, tr) => (Except.ok [], tr)
  | (Except.ok (some ur), tr) =>
    ((whileLoop g ur.1 fuel (some ur.2)).1, tr ++ (whileLoop g ur.1 fuel (some ur.2)).2)

/-- `get_courses` (lines 315-389): the whole body runs under
`try ... except Exception: return []`. -/
def getCourses (g : Str → Except Str Resp) (fuel : Nat) : List Course :=
  match (getCoursesBody g fuel).1 with
  | Except.ok cs => cs
  | Except.error _ => []

-- ======================================================================
-- C1: name stripping and title derivation
-- ======================================================================

/-- Index of the first occurrence of `sep` in a string, if any. -/
def firstOccIdx (sep : Str) : Str → Option Nat
  | [] => none
  | c :: t =>
    if isPrefOf sep (c :: t) then some 0 else (firstOccIdx sep t).map (· + 1)

/-- Stated from the spec's words, for comparison with the code: the course
name is "the raw API Name with a leading prefix up to the first `" - "`
separator removed when such a separator is present". -/
def specStrippedName (raw : Str) : Str :=
  match firstOccIdx ([' ', '-', ' ']) raw with
  | some i => raw.drop (i + 3)
  | none => raw

/-- Stated from the spec's words: the title equals `"<code> - <name>"` when
the code is non-empty and differs from the (stripped) name, and equals the
name alone otherwise. -/
def specTitle (code name : Str) : Str :=
  if code ≠ [] ∧ code ≠ name then code ++ (" - ").toList ++ name else name

theorem splitOnceAux_eq_firstOcc (sep : Str) : ∀ s : Str,
    splitOnceAux sep s =
      (firstOccIdx sep s).map (fun i => (s.take i, s.drop (i + sep.length))) := by
  intro s
  induction s with
  | nil => rfl
  | cons c t ih =>
    by_cases h : isPrefOf sep (c :: t) = true
    · rw [splitOnceAux, if_pos h, firstOccIdx, if_pos h]
      simp
    · rw [splitOnceAux, if_neg h, firstOccIdx, if_neg h, ih]
      cases hf : firstOccIdx sep t with
      | none => rfl
      | some i =>
        simp only [Option.map_some', Option.map_map]
        have harith : i + 1 + sep.length = (i + sep.length) + 1 := by omega
        simp [List.take_succ_cons, harith, List.drop_succ_cons]

theorem stripNameDash_eq_spec (raw : Str) : stripNameDash raw = specStrippedName raw := by
  unfold stripNameDash specStrippedName containsSub
  rw [splitOnceAux_eq_firstOcc]
  cases hf : firstOccIdx ([' ', '-', ' ']) raw with
  | none => simp
  | some i => simp

theorem mkTitle_eq_spec (code name : Str) : mkTitle code name = specTitle code name := rfl

theorem processEnrollment_fields (e : Enrollment) (c : Course)
    (h : processEnrollment e = some c) :
    c.code = e.orgUnit.code ∧ c.name = specStrippedName e.orgUnit.name ∧
      c.title = specTitle c.code c.name := by
  unfold processEnrollment at h
  split at h
  · injection h with h2
    rw [← h2]
    exact ⟨rfl, stripNameDash_eq_spec _, rfl⟩
  · exact absurd h (by simp)

theorem whileLoop_mem (g : Str → Except Str Resp) (apiUrl : Str) :
    ∀ (fuel : Nat) (r : Option Resp) (cs : List Course),
      (whileLoop g apiUrl fuel r).1 = Except.ok cs →
      ∀ c ∈ cs, ∃ e, processEnrollment e = some c := by
  intro fuel
  induction fuel with
  | zero =>
    intro r cs h c hc
    match r with
    | none =>
      rw [whileLoop] at h
      injection h with h2
      rw [← h2] at hc
      exact absurd hc (by simp)
    | some r =>
      rw [whileLoop] at h
      split at h
      · injection h with h2
        rw [← h2] at hc
        exact absurd hc (by simp)
      · split at h
        · exact absurd h (by simp)
        · rename_i pb
          split at h
          · split at h
            · exact absurd h (by simp)
            · injection h with h2
              rw [← h2] at hc
              obtain ⟨e, -, he⟩ := List.mem_filterMap.mp hc
              exact ⟨e, he⟩
          · injection h with h2
            rw [← h2] at hc
            obtain ⟨e, -, he⟩ := List.mem_filterMap.mp hc
            exact ⟨e, he⟩
  | succ f ih =>
    intro r cs h c hc
    match r with
    | none =>
      rw [whileLoop] at h
      injection h with h2
      rw [← h2] at hc
      exact absurd hc (by simp)
    | some r =>
      rw [whileLoop] at h
      split at h
      · injection h with h2
        rw [← h2] at hc
        exact absurd hc (by simp)
      · split at h
        · exact absurd h (by simp)
        · rename_i pb
          split at h
          · split at h
            · rename_i b
              split at h
              · exact absurd h (by simp)
              · rename_i r2 heq
                rcases hrec : (whileLoop g apiUrl f (some r2)).1 with e2 | cs2
                · rw [hrec] at h
                  exact absurd h (by simp [Except.map])
                · rw [hrec] at h
                  simp only [Except.map] at h
                  injection h with h2
                  rw [← h2] at hc
                  rcases List.mem_append.mp hc with h3 | h3
                  · obtain ⟨e, -, he⟩ := List.mem_filterMap.mp h3
                    exact ⟨e, he⟩
                  · exact ih (some r2) cs2 hrec c h3
            · injection h with h2
              rw [← h2] at hc
              obtain ⟨e, -, he⟩ := List.mem_filterMap.mp hc
              exact ⟨e, he⟩
          · injection h with h2
            rw [← h2] at hc
            obtain ⟨e, -, he⟩ := List.mem_filterMap.mp hc
            exact ⟨e, he⟩

theorem getCourses_mem (g : Str → Except Str Resp) (fuel : Nat) (c : Course)
    (hc : c ∈ getCourses g fuel) : ∃ e, processEnrollment e = some c := by
  unfold getCourses at hc
  rcases hb : (getCoursesBody g fuel).1 with e2 | cs
  · rw [hb] at hc
    exact absurd hc (by simp)
  · rw [hb] at hc
    unfold getCoursesBody at hb
    rcases hpv : probeVersions g apiVersions with ⟨res, tr⟩
    rw [hpv] at hb
    match res with
    | Except.error e2 => exact absurd hb (by simp)
    | Except.ok none =>
      simp only [] at hb
      injection hb with hb2
      rw [← hb2] at hc
      exact absurd hc (by simp)
    | Except.ok (some ur) =>
      simp only [] at hb
      exact whileLoop_mem g ur.1 fuel (some ur.2) cs hb c hc

/-- Claim C1: every course record accepted by `get_courses` has as `name`
the raw API `Name` with the leading prefix up to the first `" - "`
separator removed when present, and as `title` `"<code> - <name>"` when the
code is non-empty and differs from the stripped name, else the name alone. -/
theorem claim_C1 (g : Str → Except Str Resp) (fuel : Nat) (c : Course)
    (hc : c ∈ getCourses g fuel) :
    ∃ e, processEnrollment e = some c ∧ c.code = e.orgUnit.code ∧
      c.name = specStrippedName e.orgUnit.name ∧ c.title = specTitle c.code c.name := by
  obtain ⟨e, he⟩ := getCourses_mem g fuel c hc
  obtain ⟨h1, h2, h3⟩ := processEnrollment_fields e c he
  exact ⟨e, he, h1, h2, h3⟩

def c1g : Str → Except Str Resp := fun u =>
  if u = apiUrlOf (("1.28").toList) then
    Except.ok ⟨200, Except.ok
      ⟨[⟨⟨some 101, ("Group A - Systems Design").toList, ("SYS101").toList, some 3⟩,
         ⟨true, ("2025-09-22").toList⟩⟩], false, none⟩⟩
  else Except.error (("unreachable").toList)

def c1course : Course :=
  { title := ("SYS101 - Systems Design").toList
    url := BASE_URL ++ ("/d2l/home/").toList ++ natRepr 101
    content_url := BASE_URL ++ ("/d2l/le/content/").toList ++ natRepr 101 ++
      ("/Home").toList
    id := natRepr 101
    code := ("SYS101").toList
    name := ("Systems Design").toList
    start := ("2025-09-22").toList }

theorem claim_C1_witness :
    ∃ e, processEnrollment e = some c1course ∧ c1course.code = e.orgUnit.code ∧
      c1course.name = specStrippedName e.orgUnit.name ∧
      c1course.title = specTitle c1course.code c1course.name :=
  claim_C1 c1g 0 c1course (by decide)

-- ======================================================================
-- C3: the pagination protocol
-- ======================================================================

/-- The bookmark URLs the loop requests for a chain of pages: one per page
that has a successor. -/
def nextUrls (apiUrl : Str) : List PageBody → List Str
  | [] => []
  | [_] => []
  | p :: q :: rest =>
    (apiUrl ++ bookmarkQuery (p.bookmark.getD [])) :: nextUrls apiUrl (q :: rest)

/-- The claim's scenario: each page but the last signals more items and
carries a bookmark under which the oracle serves the next page (status 200,
body decoding fine); the last page signals no more items. -/
def pagesLinked (g : Str → Except Str Resp) (apiUrl : Str) : List PageBody → Prop
  | [] => True
  | [p] => p.hasMore = false
  | p :: q :: rest =>
    p.hasMore = true ∧ ∃ b, p.bookmark = some b ∧
      g (apiUrl ++ bookmarkQuery b) = Except.ok ⟨200, Except.ok q⟩ ∧
      pagesLinked g apiUrl (q :: rest)

theorem nextUrls_length (apiUrl : Str) : ∀ l : List PageBody,
    (nextUrls apiUrl l).length = l.length - 1 := by
  intro l
  induction l with
  | nil => rfl
  | cons p t ih =>
    cases t with
    | nil => rfl
    | cons q r =>
      simp only [nextUrls, List.length_cons]
      rw [ih]
      simp

theorem whileLoop_pages (g : Str → Except Str Resp) (apiUrl : Str) :
    ∀ (rest : List PageBody) (p : PageBody) (fuel : Nat),
      pagesLinked g apiUrl (p :: rest) → rest.length ≤ fuel →
      whileLoop g apiUrl fuel (some ⟨200, Except.ok p⟩) =
        (Except.ok (((p :: rest).map pageCourses).flatten),
          nextUrls apiUrl (p :: rest)) := by
  intro rest
  induction rest with
  | nil =>
    intro p fuel hl _
    have hm : p.hasMore = false := hl
    cases fuel with
    | zero => simp [whileLoop, hm, nextUrls]
    | succ f => simp [whileLoop, hm, nextUrls]
  | cons q rest ih =>
    intro p fuel hl hf
    obtain ⟨hmore, b, hb, hg, hlink⟩ := hl
    cases fuel with
    | zero => simp at hf
    | succ f =>
      have hf2 : rest.length ≤ f := by simpa using hf
      have hrec := ih q f hlink hf2
      simp [whileLoop, hmore, hb, hg, hrec, nextUrls, Except.map]

/-- Claim C3: with the first version probe serving page 0 (HTTP 200) and a
chain of `n + 1` pages where each page but the last signals more items with
a bookmark, `get_courses` issues exactly `n + 1` page requests — the API
URL, then the same URL with `?Bookmark=<token>` appended once per follow-up
page — and its loop returns the filtered union of all the pages' items. -/
theorem claim_C3 (g : Str → Except Str Resp) (p : PageBody) (rest : List PageBody)
    (fuel : Nat)
    (h0 : g (apiUrlOf (("1.28").toList)) = Except.ok ⟨200, Except.ok p⟩)
    (hl : pagesLinked g (apiUrlOf (("1.28").toList)) (p :: rest))
    (hf : rest.length ≤ fuel) :
    getCoursesBody g fuel =
      (Except.ok (((p :: rest).map pageCourses).flatten),
       apiUrlOf (("1.28").toList) ::
         nextUrls (apiUrlOf (("1.28").toList)) (p :: rest)) ∧
    (getCoursesBody g fuel).2.length = rest.length + 1 := by
  have hpv : probeVersions g apiVersions =
      (Except.ok (some (apiUrlOf (("1.28").toList), ⟨200, Except.ok p⟩)),
       [apiUrlOf (("1.28").toList)]) := by
    simp only [probeVersions, apiVersions, h0]
    simp
  have hw := whileLoop_pages g (apiUrlOf (("1.28").toList)) rest p fuel hl hf
  have h1 : getCoursesBody g fuel =
      (Except.ok (((p :: rest).map pageCourses).flatten),
       apiUrlOf (("1.28").toList) ::
         nextUrls (apiUrlOf (("1.28").toList)) (p :: rest)) := by
    simp only [getCoursesBody, hpv]
    rw [hw]
    simp
  refine ⟨h1, ?_⟩
  rw [h1]
  simp [nextUrls_length]

def c3enr1 : Enrollment :=
  ⟨⟨some 201, ("Algorithms").toList, ("CS201").toList, some 3⟩,
   ⟨true, ("2025-09-22").toList⟩⟩

def c3enr2 : Enrollment :=
  ⟨⟨some 202, ("B - Databases").toList, ("DB202").toList, some 3⟩,
   ⟨true, ("2025-09-22").toList⟩⟩

def c3page1 : PageBody := ⟨[c3enr1], true, some (("BMK1").toList)⟩

def c3page2 : PageBody := ⟨[c3enr2], false, none⟩

def c3g : Str → Except Str Resp := fun u =>
  if u = apiUrlOf (("1.28").toList) then Except.ok ⟨200, Except.ok c3page1⟩
  else if u = apiUrlOf (("1.28").toList) ++ bookmarkQuery (("BMK1").toList) then
    Except.ok ⟨200, Except.ok c3page2⟩
  else Except.error (("unreachable").toList)

theorem claim_C3_witness :
    getCoursesBody c3g 1 =
      (Except.ok (([c3page1, c3page2].map pageCourses).flatten),
       apiUrlOf (("1.28").toList) ::
         nextUrls (apiUrlOf (("1.28").toList)) [c3page1, c3page2]) ∧
    (getCoursesBody c3g 1).2.length = 1 + 1 :=
  claim_C3 c3g c3page1 [c3page2] 1 (by decide)
    ⟨rfl, ("BMK1").toList, rfl, by decide, rfl⟩ (by decide)

-- ======================================================================
-- C8: any exception inside get_courses yields the empty list
-- ======================================================================

def c8enr : Enrollment :=
  ⟨⟨some 301, ("Networks").toList, ("NW301").toList, some 3⟩,
   ⟨true, ("2025-09-22").toList⟩⟩

def c8page1 : PageBody := ⟨[c8enr], true, some (("BMK8").toList)⟩

/-- An oracle whose first page succeeds (with one accepted item) and whose
second page's JSON decoding raises. -/
def c8g : Str → Except Str Resp := fun u =>
  if u = apiUrlOf (("1.28").toList) then Except.ok ⟨200, Except.ok c8page1⟩
  else if u = apiUrlOf (("1.28").toList) ++ bookmarkQuery (("BMK8").toList) then
    Except.ok ⟨200, Except.error (("bad json").toList)⟩
  else Except.error (("unreachable").toList)

/-- Claim C8: whenever any step of `get_courses`'s body raises (version
probing, page fetching, JSON decoding), the surrounding `except` returns
`[]`; concretely, a decode failure on the second page discards the first
page's already-accepted course and yields `[]`. -/
theorem claim_C8 :
    (∀ (g : Str → Except Str Resp) (fuel : Nat) (err : Str),
        (getCoursesBody g fuel).1 = Except.error err → getCourses g fuel = []) ∧
      pageCourses c8page1 ≠ [] ∧
      (getCoursesBody c8g 5).1 = Except.error (("bad json").toList) ∧
      getCourses c8g 5 = [] := by
  refine ⟨?_, by decide, by decide, by decide⟩
  intro g fuel err h
  unfold getCourses
  rw [h]

-- ======================================================================
-- C4: download_materials (cli.py lines 752-779)
-- ======================================================================

/-- A material row as the content extractor produces it (cli.py 414-419). -/
structure Material where
  title : Str
  url : Str
  type : Str
  id : Option Str
deriving DecidableEq, Repr

/-- Line 760: `re.sub(r'[<>:"/\\|?*]', '_', filename)`. -/
def sanitizeFilename (s : Str) : Str :=
  s.map (fun c =>
    if c ∈ ['<', '>', ':', '\"', '/', '\\', '|', '?', '*'] then '_' else c)

/-- Line 761: `base_dir / filename`. -/
def pathJoin (dir name : Str) : Str := dir ++ '/' :: name

/-- Line 764: `item['type'] in ['Assignment', 'Discussion Topic']`. -/
def skipType (m : Material) : Bool :=
  m.type = ("Assignment").toList ∨ m.type = ("Discussion Topic").toList

/-- What one run of `download_materials` did: the returned counters, the
`download_file` calls it made (file id and destination path, in order), and
how often it advanced the progress indicator. -/
structure DlResult where
  downloaded : Nat
  failed : Nat
  attempts : List (Option Str × Str)
  ticks : Nat
deriving DecidableEq, Repr

/-- `download_materials` (cli.py lines 752-779).  `dl` is the oracle for
`ufora.download_file(course_id, item['id'], dest_path)`; `hasProg` models
whether `progress_obj and progress_task is not None` holds. -/
def download_materials (dl : Option Str → Str → Bool) (hasProg : Bool)
    (baseDir : Str) : List Material → DlResult
  | [] => ⟨0, 0, [], 0⟩
  | item :: rest =>
    let dest := pathJoin baseDir (sanitizeFilename item.title)
    if skipType item then
      let r := download_materials dl hasProg baseDir rest
      ⟨r.downloaded, r.failed, r.attempts, (if hasProg then 1 else 0) + r.ticks⟩
    else
      let ok := dl item.id dest
      let r := download_materials dl hasProg baseDir rest
      ⟨(if ok then 1 else 0) + r.downloaded, (if ok then 0 else 1) + r.failed,
       (item.id, dest) :: r.attempts, (if hasProg then 1 else 0) + r.ticks⟩

theorem dlm_attempts (dl : Option Str → Str → Bool) (hp : Bool) (baseDir : Str) :
    ∀ ms : List Material, (download_materials dl hp baseDir ms).attempts =
      (ms.filter (fun m => !skipType m)).map
        (fun m => (m.id, pathJoin baseDir (sanitizeFilename m.title))) := by
  intro ms
  induction ms with
  | nil => rfl
  | cons item rest ih =>
    cases hskip : skipType item with
    | true => simp [download_materials, hskip, ih]
    | false => simp [download_materials, hskip, ih]

theorem dlm_downloaded (dl : Option Str → Str → Bool) (hp : Bool) (baseDir : Str) :
    ∀ ms : List Material, (download_materials dl hp baseDir ms).downloaded =
      ((ms.filter (fun m => !skipType m)).filter
        (fun m => dl m.id (pathJoin baseDir (sanitizeFilename m.title)))).length := by
  intro ms
  induction ms with
  | nil => rfl
  | cons item rest ih =>
    cases hskip : skipType item with
    | true => simp [download_materials, hskip, ih]
    | false =>
      cases hdl : dl item.id (pathJoin baseDir (sanitizeFilename item.title)) with
      | true => simp [download_materials, hskip, hdl, ih, Nat.add_comm]
      | false => simp [download_materials, hskip, hdl, ih]

theorem dlm_failed (dl : Option Str → Str → Bool) (hp : Bool) (baseDir : Str) :
    ∀ ms : List Material, (download_materials dl hp baseDir ms).failed =
      ((ms.filter (fun m => !skipType m)).filter
        (fun m => !dl m.id (pathJoin baseDir (sanitizeFilename m.title)))).length := by
  intro ms
  induction ms with
  | nil => rfl
  | cons item rest ih =>
    cases hskip : skipType item with
    | true => simp [download_materials, hskip, ih]
    | false =>
      cases hdl : dl item.id (pathJoin baseDir (sanitizeFilename item.title)) with
      | true => simp [download_materials, hskip, hdl, ih]
      | false => simp [download_materials, hskip, hdl, ih, Nat.add_comm]

theorem dlm_ticks (dl : Option Str → Str → Bool) (hp : Bool) (baseDir : Str) :
    ∀ ms : List Material, (download_materials dl hp baseDir ms).ticks =
      if hp then ms.length else 0 := by
  intro ms
  induction ms with
  | nil => cases hp <;> rfl
  | cons item rest ih =>
    cases hskip : skipType item with
    | true => cases hp <;> simp [download_materials, hskip, ih, Nat.add_comm]
    | false => cases hp <;> simp [download_materials, hskip, ih, Nat.add_comm]

/-- Claim C4: `download_materials` skips `Assignment`/`Discussion Topic`
items (no download call, not counted), calls the underlying download once
per other item (in order, with the sanitised destination path), counts
successes as `downloaded` and the rest as `failed`, and advances the
progress indicator exactly once per input item, skipped ones included. -/
theorem claim_C4 (dl : Option Str → Str → Bool) (baseDir : Str) (ms : List Material) :
    (download_materials dl true baseDir ms).attempts =
      (ms.filter (fun m => !skipType m)).map
        (fun m => (m.id, pathJoin baseDir (sanitizeFilename m.title))) ∧
    (download_materials dl true baseDir ms).downloaded =
      ((ms.filter (fun m => !skipType m)).filter
        (fun m => dl m.id (pathJoin baseDir (sanitizeFilename m.title)))).length ∧
    (download_materials dl true baseDir ms).failed =
      ((ms.filter (fun m => !skipType m)).filter
        (fun m => !dl m.id (pathJoin baseDir (sanitizeFilename m.title)))).length ∧
    (download_materials dl true baseDir ms).ticks = ms.length :=
  ⟨dlm_attempts dl true baseDir ms, dlm_downloaded dl true baseDir ms,
   dlm_failed dl true baseDir ms, by rw [dlm_ticks dl true baseDir ms]; rfl⟩

-- ======================================================================
-- C6: ensure_authenticated (cli.py lines 290-302)
-- ======================================================================

/-- The observable authentication actions, in order. -/
inductive AuthEvent where
  | loadCookies (found : Bool)
  | probeAuth (valid : Bool)
  | silentRefresh (ok : Bool)
  | interactiveLogin
deriving DecidableEq, Repr

/-- `ensure_authenticated` (cli.py lines 290-302), as the trace of actions
it performs given what each underlying step would return: `lc` is
`load_cookies()`, `probe` is `is_authenticated()`, `refresh` is
`refresh_session_with_persistent_cookies()`. -/
def ensureAuthenticated (lc probe refresh : Bool) : List AuthEvent :=
  if lc then
    if probe then [AuthEvent.loadCookies true, AuthEvent.probeAuth true]
    else
      if refresh then
        [AuthEvent.loadCookies true, AuthEvent.probeAuth false,
         AuthEvent.silentRefresh true]
      else
        [AuthEvent.loadCookies true, AuthEvent.probeAuth false,
         AuthEvent.silentRefresh false, AuthEvent.interactiveLogin]
  else [AuthEvent.loadCookies false, AuthEvent.interactiveLogin]

/-- Counterexample to claim C6 as stated: when `load_cookies()` finds no
cookie file, `ensure_authenticated` goes straight to the interactive
browser login — the trace contains `interactiveLogin` but no silent
refresh attempt at all. -/
theorem claim_C6_cex :
    AuthEvent.interactiveLogin ∈ ensureAuthenticated false true true ∧
      (∀ b : Bool, AuthEvent.silentRefresh b ∉ ensureAuthenticated false true true) := by
  decide

/-- Claim C6 (amended): when the stored cookies load successfully, a valid
probe returns with no further action; a failed probe triggers the silent
refresh, and interactive login runs only when that refresh failed.  When
no cookies load, interactive login runs directly, with no probe and no
refresh attempt. -/
theorem claim_C6 (lc probe refresh : Bool) :
    (lc = true → probe = true →
      ensureAuthenticated lc probe refresh =
        [AuthEvent.loadCookies true, AuthEvent.probeAuth true]) ∧
    (lc = true → AuthEvent.interactiveLogin ∈ ensureAuthenticated lc probe refresh →
      AuthEvent.silentRefresh false ∈ ensureAuthenticated lc probe refresh ∧
        refresh = false) ∧
    (lc = false →
      ensureAuthenticated lc probe refresh =
        [AuthEvent.loadCookies false, AuthEvent.interactiveLogin]) := by
  cases lc <;> cases probe <;> cases refresh <;> decide

-- ======================================================================
-- C5: get_course_content, first pass module registration
-- ======================================================================

/-- An anchor found by `find('a', class_='d2l-link', href=re.compile(...))`:
its stripped text and its `href` (non-empty and containing
`/d2l/le/content/` by construction of the query). -/
structure FileLink where
  text : Str
  href : Str
deriving DecidableEq, Repr

/-- One `li.d2l-datalist-item` row: its matching link, if any, and the text
of its small type block, if any (cli.py lines 399-411). -/
structure FileItem where
  link : Option FileLink
  typeText : Option Str
deriving DecidableEq, Repr

/-- One top-level module list item: its `h2` heading text (none when the
heading is missing) and its file rows (cli.py lines 448-458). -/
structure ModuleItem where
  header : Option Str
  fileItems : List FileItem
deriving DecidableEq, Repr

/-- One nested accordion item (cli.py lines 467-498): whether it carries the
root marker class, the label of its nearest root ancestor (`none` covers
both a missing ancestor and a missing label), its own label, and the
numeric id extracted from its identifier. -/
structure NestedItem where
  isRoot : Bool
  parentHeader : Option Str
  folderName : Option Str
  folderId : Option Str
deriving DecidableEq, Repr

/-- The parsed course content page: the table-of-contents module items
(`none` when the TOC list element is absent) and the nested accordion
items found page-wide. -/
structure ContentPage where
  toc : Option (List ModuleItem)
  nested : List NestedItem
deriving DecidableEq, Repr

structure Subfolder where
  name : Str
  materials : List Material
deriving DecidableEq, Repr

/-- A module as `get_course_content` returns it (the source emits the
`subfolders` key only when the list is non-empty; here the field simply
holds the possibly-empty list). -/
structure ModuleRec where
  name : Str
  materials : List Material
  subfolders : List Subfolder
deriving DecidableEq, Repr

/-- `re.search(r'/viewContent/(\d+)/View', url)` at one position: the
digit group when the pattern matches here. -/
def matchViewAt (s : Str) : Option Str :=
  if isPrefOf (("/viewContent/").toList) s then
    if (s.drop 13).takeWhile isDig ≠ [] ∧
        isPrefOf (("/View").toList)
          ((s.drop 13).drop ((s.drop 13).takeWhile isDig).length) then
      some ((s.drop 13).takeWhile isDig)
    else none
  else none

/-- `re.search` scans left to right for the first matching position. -/
def searchViewId : Str → Option Str
  | [] => none
  | c :: t =>
    match matchViewAt (c :: t) with
    | some ds => some ds
    | none => searchViewId t

/-- `urljoin(BASE_URL, url)` for the href shapes this page carries:
site-absolute paths are resolved against the base, absolute URLs kept. -/
def urljoinBase (url : Str) : Str :=
  if isPrefOf (("http").toList) url then url else BASE_URL ++ url

/-- `_extract_materials_from_page` (cli.py lines 391-421) applied to the
file rows of a fragment. -/
def extractMaterials (items : List FileItem) : List Material :=
  items.filterMap (fun fi =>
    match fi.link with
    | none => none
    | some l =>
      if l.href ≠ [] then
        some { title := l.text
               url := urljoinBase l.href
               type := match fi.typeText with
                       | some t => t
                       | none => ("Unknown").toList
               id := searchViewId l.href }
      else none)

/-- Lines 448-465: one first-pass step — read the heading, skip a missing
or empty heading, extract materials, and register the module (keyed by
name, last write wins) only when materials were found. -/
def registerStep (mods : List (Str × ModuleRec)) (mi : ModuleItem) :
    List (Str × ModuleRec) :=
  match mi.header with
  | none => mods
  | some name =>
    if name = [] then mods
    else
      if extractMaterials mi.fileItems ≠ [] then
        insertAssoc mods name ⟨name, extractMaterials mi.fileItems, []⟩
      else mods

def registerModules (items : List ModuleItem) : List (Str × ModuleRec) :=
  items.foldl registerStep []

/-- Lines 521-536: attach a subfolder to its parent module, creating the
parent (with no materials) when the first pass did not register it. -/
def appendSubfolder (mods : List (Str × ModuleRec)) (parent : Str)
    (sub : Subfolder) : List (Str × ModuleRec) :=
  match lookupAssoc mods parent with
  | some r => insertAssoc mods parent ⟨r.name, r.materials, r.subfolders ++ [sub]⟩
  | none => insertAssoc mods parent ⟨parent, [], [sub]⟩

/-- Lines 478-540: one nested-pass step.  `subFetch` stands for the
state-setting request plus re-fetch and extraction for a folder id; `none`
models the `except` that skips the subfolder. -/
def nestedStep (subFetch : Str → Option (List Material))
    (mods : List (Str × ModuleRec)) (ni : NestedItem) : List (Str × ModuleRec) :=
  match ni.parentHeader with
  | none => mods
  | some parentName =>
    if parentName = [] then mods
    else
      match ni.folderName with
      | none => mods
      | some folderName =>
        if folderName = [] ∨ containsSub (("module:").toList) (pyLower folderName) then
          mods
        else
          match ni.folderId with
          | none => mods
          | some fid =>
            match subFetch fid with
            | none => mods
            | some mats => appendSubfolder mods parentName ⟨folderName, mats⟩

/-- `get_course_content` (cli.py lines 424-562): first-pass registration
over the TOC module items (early empty return when the TOC or its items
are missing), then the nested pass over non-root accordion items, then the
dict's values in insertion order. -/
def getCourseContent (page : ContentPage)
    (subFetch : Str → Option (List Material)) : List ModuleRec :=
  match page.toc with
  | none => []
  | some items =>
    if items = [] then []
    else
      ((page.nested.filter (fun ni => !ni.isRoot)).foldl (nestedStep subFetch)
        (registerModules items)).map Prod.snd

theorem lookup_insertAssoc_self {α β : Type} [DecidableEq α]
    (l : List (α × β)) (k : α) (v : β) :
    lookupAssoc (insertAssoc l k v) k = some v := by
  induction l with
  | nil => simp [insertAssoc, lookupAssoc]
  | cons hd t ih =>
    rcases hd with ⟨k', v'⟩
    by_cases h : k' = k
    · rw [insertAssoc, if_pos h, lookupAssoc, if_pos rfl]
    · rw [insertAssoc, if_neg h, lookupAssoc, if_neg h, ih]

theorem lookup_insertAssoc_other {α β : Type} [DecidableEq α]
    (l : List (α × β)) (k k2 : α) (v : β) (h : k ≠ k2) :
    lookupAssoc (insertAssoc l k v) k2 = lookupAssoc l k2 := by
  induction l with
  | nil => simp [insertAssoc, lookupAssoc, h]
  | cons hd t ih =>
    rcases hd with ⟨k', v'⟩
    by_cases h2 : k' = k
    · rw [insertAssoc, if_pos h2, lookupAssoc, if_neg h, lookupAssoc, if_neg (h2 ▸ h)]
    · rw [insertAssoc, if_neg h2, lookupAssoc, lookupAssoc]
      by_cases h3 : k' = k2
      · rw [if_pos h3, if_pos h3]
      · rw [if_neg h3, if_neg h3, ih]

theorem lookup_mem_snd {α β : Type} [DecidableEq α] :
    ∀ (l : List (α × β)) (k : α) (v : β),
      lookupAssoc l k = some v → v ∈ l.map Prod.snd := by
  intro l
  induction l with
  | nil => intro k v h; exact absurd h (by simp [lookupAssoc])
  | cons hd t ih =>
    intro k v h
    rcases hd with ⟨k', v'⟩
    rw [lookupAssoc] at h
    by_cases h2 : k' = k
    · rw [if_pos h2] at h
      injection h with h3
      simp [h3]
    · rw [if_neg h2] at h
      exact List.mem_cons_of_mem _ (ih k v h)

theorem registerStep_lookup_other (M : List (Str × ModuleRec)) (x : ModuleItem)
    (name : Str)
    (hx : ¬ (x.header = some name ∧ extractMaterials x.fileItems ≠ [])) :
    lookupAssoc (registerStep M x) name = lookupAssoc M name := by
  unfold registerStep
  rcases hh : x.header with _ | n
  · rfl
  · dsimp only
    by_cases hn : n = []
    · rw [if_pos hn]
    · rw [if_neg hn]
      by_cases hm : extractMaterials x.fileItems ≠ []
      · rw [if_pos hm]
        have hne : n ≠ name := fun he => hx ⟨by rw [hh, he], hm⟩
        exact lookup_insertAssoc_other _ _ _ _ hne
      · rw [if_neg hm]

theorem reg_lookup (name : Str) (items : List ModuleItem) (hne : name ≠ []) :
    ∀ (acc : List (Str × ModuleRec)) (last : ModuleItem),
      items.reverse.find? (fun it =>
        decide (it.header = some name ∧ extractMaterials it.fileItems ≠ [])) =
          some last →
      lookupAssoc (items.foldl registerStep acc) name =
        some ⟨name, extractMaterials last.fileItems, []⟩ := by
  induction items using List.reverseRecOn with
  | nil =>
    intro acc last h
    simp at h
  | append_singleton init x ih =>
    intro acc last hfind
    rw [List.reverse_append] at hfind
    simp only [List.reverse_singleton, List.singleton_append] at hfind
    rw [List.foldl_append]
    simp only [List.foldl_cons, List.foldl_nil]
    by_cases hx : x.header = some name ∧ extractMaterials x.fileItems ≠ []
    · have hpx : decide (x.header = some name ∧ extractMaterials x.fileItems ≠ [])
          = true := by simp [hx.1, hx.2]
      simp only [List.find?, hpx] at hfind
      injection hfind with hlast
      subst hlast
      unfold registerStep
      rw [hx.1]
      dsimp only
      rw [if_neg hne, if_pos hx.2]
      exact lookup_insertAssoc_self _ _ _
    · have hpx : decide (x.header = some name ∧ extractMaterials x.fileItems ≠ [])
          = false := by simpa using hx
      simp only [List.find?, hpx] at hfind
      rw [registerStep_lookup_other _ _ _ hx]
      exact ih acc last hfind

theorem nestedStep_preserve (subFetch : Str → Option (List Material))
    (M : List (Str × ModuleRec)) (ni : NestedItem) (name : Str) (r : ModuleRec)
    (h : lookupAssoc M name = some r) :
    ∃ r2, lookupAssoc (nestedStep subFetch M ni) name = some r2 ∧
      r2.name = r.name ∧ r2.materials = r.materials := by
  unfold nestedStep
  rcases hph : ni.parentHeader with _ | pn
  · exact ⟨r, h, rfl, rfl⟩
  · dsimp only
    by_cases h1 : pn = []
    · rw [if_pos h1]; exact ⟨r, h, rfl, rfl⟩
    · rw [if_neg h1]
      rcases hfn : ni.folderName with _ | fn
      · exact ⟨r, h, rfl, rfl⟩
      · dsimp only
        by_cases h2 : fn = [] ∨ containsSub (("module:").toList) (pyLower fn) = true
        · rw [if_pos h2]; exact ⟨r, h, rfl, rfl⟩
        · rw [if_neg h2]
          rcases hfi : ni.folderId with _ | fid
          · exact ⟨r, h, rfl, rfl⟩
          · dsimp only
            rcases hsf : subFetch fid with _ | mats
            · exact ⟨r, h, rfl, rfl⟩
            · dsimp only
              unfold appendSubfolder
              by_cases hpn : pn = name
              · subst hpn
                rw [h]
                dsimp only
                exact ⟨⟨r.name, r.materials, r.subfolders ++ [⟨fn, mats⟩]⟩,
                  lookup_insertAssoc_self _ _ _, rfl, rfl⟩
              · rcases hlp : lookupAssoc M pn with _ | rp
                · dsimp only
                  rw [lookup_insertAssoc_other _ _ _ _ hpn]
                  exact ⟨r, h, rfl, rfl⟩
                · dsimp only
                  rw [lookup_insertAssoc_other _ _ _ _ hpn]
                  exact ⟨r, h, rfl, rfl⟩

theorem nestedFold_preserve (subFetch : Str → Option (List Material)) :
    ∀ (nis : List NestedItem) (M : List (Str × ModuleRec)) (name : Str)
      (r : ModuleRec),
      lookupAssoc M name = some r →
      ∃ r2, lookupAssoc (nis.foldl (nestedStep subFetch) M) name = some r2 ∧
        r2.name = r.name ∧ r2.materials = r.materials := by
  intro nis
  induction nis with
  | nil => intro M name r h; exact ⟨r, h, rfl, rfl⟩
  | cons ni rest ih =>
    intro M name r h
    obtain ⟨r1, h1, hn1, hm1⟩ := nestedStep_preserve subFetch M ni name r h
    obtain ⟨r2, h2, hn2, hm2⟩ := ih (nestedStep subFetch M ni) name r1 h1
    exact ⟨r2, h2, hn2.trans hn1, hm2.trans hm1⟩

/-- A content page with one top-level module item whose heading is
non-empty but whose subtree yields no materials. -/
def c5page : ContentPage := ⟨some [⟨some (("Empty Module").toList), []⟩], []⟩

/-- Counterexample to claim C5 as stated: the module item's heading text is
non-empty, yet `get_course_content` returns no module at all for this page,
because the first pass registers a module only when its extracted
materials list is non-empty (cli.py line 460's `if materials:`). -/
theorem claim_C5_cex :
    c5page.toc = some [⟨some (("Empty Module").toList), []⟩] ∧
      ("Empty Module").toList ≠ [] ∧
      getCourseContent c5page (fun _ => none) = [] := by
  refine ⟨rfl, by decide, ?_⟩
  rfl

/-- Claim C5 (amended): in the first pass every top-level module list item
whose heading text is non-empty **and whose extracted materials list is
non-empty** is registered keyed by that name, with last-write-wins on name
collisions: a module with that name appears in the returned list and its
materials are those of the last such item. -/
theorem claim_C5 (page : ContentPage) (subFetch : Str → Option (List Material))
    (items : List ModuleItem) (item : ModuleItem) (name : Str)
    (htoc : page.toc = some items) (hmem : item ∈ items)
    (hname : item.header = some name) (hne : name ≠ [])
    (hmats : extractMaterials item.fileItems ≠ []) :
    ∃ m ∈ getCourseContent page subFetch, m.name = name ∧
      ∃ last, items.reverse.find? (fun it =>
          decide (it.header = some name ∧ extractMaterials it.fileItems ≠ [])) =
            some last ∧
        m.materials = extractMaterials last.fileItems := by
  have hitems : items ≠ [] := List.ne_nil_of_mem hmem
  have hexists : ∃ last, items.reverse.find? (fun it =>
      decide (it.header = some name ∧ extractMaterials it.fileItems ≠ [])) =
        some last := by
    rw [← Option.isSome_iff_exists, List.find?_isSome]
    exact ⟨item, List.mem_reverse.mpr hmem, by simp [hname, hmats]⟩
  obtain ⟨last, hfind⟩ := hexists
  have hlook := reg_lookup name items hne [] last hfind
  obtain ⟨r2, hlook2, hn2, hm2⟩ := nestedFold_preserve subFetch
    (page.nested.filter (fun ni => !ni.isRoot)) (registerModules items) name _ hlook
  refine ⟨r2, ?_, ?_, last, hfind, ?_⟩
  · unfold getCourseContent
    rw [htoc]
    dsimp only
    rw [if_neg hitems]
    exact lookup_mem_snd _ _ _ hlook2
  · rw [hn2]
  · rw [hm2]

def c5item1 : ModuleItem :=
  ⟨some (("Week 1").toList),
   [⟨some ⟨("Slides v1").toList, ("/d2l/le/content/7/viewContent/11/View").toList⟩,
     some (("File").toList)⟩]⟩

def c5item2 : ModuleItem :=
  ⟨some (("Week 1").toList),
   [⟨some ⟨("Slides v2").toList, ("/d2l/le/content/7/viewContent/12/View").toList⟩,
     some (("File").toList)⟩]⟩

def c5wpage : ContentPage := ⟨some [c5item1, c5item2], []⟩

theorem claim_C5_witness :
    ∃ m ∈ getCourseContent c5wpage (fun _ => none), m.name = ("Week 1").toList ∧
      ∃ last, [c5item1, c5item2].reverse.find? (fun it =>
          decide (it.header = some (("Week 1").toList) ∧
            extractMaterials it.fileItems ≠ [])) = some last ∧
        m.materials = extractMaterials last.fileItems :=
  claim_C5 c5wpage (fun _ => none) [c5item1, c5item2] c5item1 (("Week 1").toList)
    rfl (by decide) (by decide) (by decide) (by decide)
